import Mathlib

/- Verification development for the Lumina photo-album backend.
   JavaScript strings are embedded through their character lists; machine
   numbers are embedded as Nat / Int / Rat; the object store and the
   metadata index are embedded as association lists threaded through the
   operations, together with an explicit trace of the store calls each
   operation issues. -/

namespace Lumina

/- JS `String.prototype.startsWith(sub)` on character lists: first
   argument is the candidate prefix, second the string searched. -/
def startsWithList : List Char → List Char → Bool
  | [], _ => true
  | _ :: _, [] => false
  | a :: as, b :: bs => a == b && startsWithList as bs

/- JS `String.prototype.includes(sub)` on character lists. -/
def hasSubList (sub : List Char) : List Char → Bool
  | [] => startsWithList sub []
  | a :: rest => startsWithList sub (a :: rest) || hasSubList sub rest

theorem startsWithList_iff (sub l : List Char) :
    startsWithList sub l = true ↔ ∃ post, l = sub ++ post := by
  induction sub generalizing l with
  | nil => simp [startsWithList]
  | cons a as ih =>
    cases l with
    | nil => simp [startsWithList]
    | cons b bs =>
      simp only [startsWithList, Bool.and_eq_true, beq_iff_eq, ih]
      constructor
      · rintro ⟨hab, post, hpost⟩
        exact ⟨post, by simp [hab, hpost]⟩
      · rintro ⟨post, hpost⟩
        simp only [List.cons_append, List.cons.injEq] at hpost
        exact ⟨hpost.1.symm, post, hpost.2⟩

theorem hasSubList_iff (sub l : List Char) :
    hasSubList sub l = true ↔ ∃ pre post, l = pre ++ sub ++ post := by
  induction l with
  | nil =>
    simp only [hasSubList, startsWithList_iff]
    constructor
    · rintro ⟨post, hpost⟩
      exact ⟨[], post, by simpa using hpost⟩
    · rintro ⟨pre, post, h⟩
      rcases List.append_eq_nil.mp h.symm with ⟨h1, h2⟩
      rcases List.append_eq_nil.mp h1 with ⟨_, h3⟩
      exact ⟨post, by simp [h3, h2]⟩
  | cons a rest ih =>
    simp only [hasSubList, Bool.or_eq_true, startsWithList_iff, ih]
    constructor
    · rintro (⟨post, hpost⟩ | ⟨pre, post, h⟩)
      · exact ⟨[], post, by simpa using hpost⟩
      · exact ⟨a :: pre, post, by simp [h]⟩
    · rintro ⟨pre, post, h⟩
      cases pre with
      | nil => exact Or.inl ⟨post, by simpa using h⟩
      | cons p ps =>
        simp only [List.cons_append, List.cons.injEq] at h
        exact Or.inr ⟨ps, post, h.2⟩

/- Singleton-substring containment coincides with membership. -/
theorem hasSubList_singleton_iff (c : Char) (l : List Char) :
    hasSubList [c] l = true ↔ c ∈ l := by
  rw [hasSubList_iff]
  constructor
  · rintro ⟨pre, post, h⟩
    subst h
    simp
  · intro hmem
    rcases List.append_of_mem hmem with ⟨s, t, hst⟩
    exact ⟨s, t, by simp [hst]⟩

/-! Key Validator (`backend/express/utils/validation.ts`, `validateS3Key`). -/

def errEmptyKey : String := "Invalid key: key must be a non-empty string"
def errTraversal : String := "Invalid key: path traversal detected"
def errNullByte : String := "Invalid key: null bytes not allowed"
def errTooLong : String := "Invalid key: key length exceeds maximum (1024 characters)"
def errCtrlChars : String := "Invalid key: control characters not allowed"

def dotDotStr : String := ".."
def slashSlashStr : String := "//"
def slashStr : String := "/"
def nullChar : Char := Char.ofNat 0

def maxKeyLength : Nat := 1024

/- The character class of the regex `[\x00-\x08\x0B-\x0C\x0E-\x1F\x7F]`. -/
def isBannedCtrl (c : Char) : Bool :=
  (c.toNat ≤ 8) || (c.toNat == 11) || (c.toNat == 12) ||
  (14 ≤ c.toNat && c.toNat ≤ 31) || (c.toNat == 127)

/- `validateS3Key` from `validation.ts`: throwing is embedded as
   `Except.error` carrying the thrown message.  The `typeof key !==
   "string"` test is not representable in the typed embedding (every
   embedded value is a string); `!key` on a string is its emptiness. -/
def validateS3Key (key : String) : Except String Unit :=
  if key.data = [] then Except.error errEmptyKey
  else if hasSubList dotDotStr.data key.data || hasSubList slashSlashStr.data key.data
      || startsWithList slashStr.data key.data then Except.error errTraversal
  else if hasSubList [nullChar] key.data then Except.error errNullByte
  else if key.data.length > maxKeyLength then Except.error errTooLong
  else if key.data.any isBannedCtrl then Except.error errCtrlChars
  else Except.ok ()

/- The claim side of C3, phrased from the spec sentence: a control
   character is a code point below 32 or the delete character 127; tab,
   LF and CR are the allowed ones. -/
def IsBadCtrlChar (c : Char) : Prop :=
  (c.toNat < 32 ∧ c.toNat ≠ 9 ∧ c.toNat ≠ 10 ∧ c.toNat ≠ 13) ∨ c.toNat = 127

def ContainsSub (sub key : String) : Prop :=
  ∃ pre post, key.data = pre ++ sub.data ++ post

def SpecRejectsKey (key : String) : Prop :=
  key = "" ∨ ContainsSub dotDotStr key ∨ ContainsSub slashSlashStr key ∨
  (∃ post, key.data = slashStr.data ++ post) ∨
  nullChar ∈ key.data ∨
  (∃ c ∈ key.data, IsBadCtrlChar c) ∨
  key.data.length > 1024

theorem isBannedCtrl_iff (c : Char) : isBannedCtrl c = true ↔ IsBadCtrlChar c := by
  simp only [isBannedCtrl, IsBadCtrlChar, Bool.or_eq_true, Bool.and_eq_true,
    decide_eq_true_eq, beq_iff_eq]
  omega

theorem data_eq_nil_iff (key : String) : key.data = [] ↔ key = "" := by
  constructor
  · intro h
    cases key
    simp_all
  · intro h
    simp [h]

theorem any_isBannedCtrl_iff (l : List Char) :
    l.any isBannedCtrl = true ↔ ∃ c ∈ l, IsBadCtrlChar c := by
  rw [List.any_eq_true]
  constructor
  · rintro ⟨c, hc, hbad⟩
    exact ⟨c, hc, (isBannedCtrl_iff c).mp hbad⟩
  · rintro ⟨c, hc, hbad⟩
    exact ⟨c, hc, (isBannedCtrl_iff c).mpr hbad⟩

/-- Claim C3: `validateKey` raises an invalid-key error exactly when the
input is empty, contains `..` or `//`, starts with `/`, contains a null
byte or a control character other than tab, CR or LF, or has length
greater than 1024; every other string is accepted. -/
theorem validateS3Key_accepts_iff (key : String) :
    validateS3Key key = Except.ok () ↔ ¬ SpecRejectsKey key := by
  constructor
  · intro hok hrej
    unfold validateS3Key at hok
    split_ifs at hok with h1 h2 h3 h4 h5
    simp only [Bool.or_eq_true, not_or] at h2
    rcases hrej with h | h | h | h | h | h | h
    · exact h1 ((data_eq_nil_iff key).mpr h)
    · rcases h with ⟨pre, post, hd⟩
      exact h2.1.1 ((hasSubList_iff dotDotStr.data key.data).mpr ⟨pre, post, hd⟩)
    · rcases h with ⟨pre, post, hd⟩
      exact h2.1.2 ((hasSubList_iff slashSlashStr.data key.data).mpr ⟨pre, post, hd⟩)
    · exact h2.2 ((startsWithList_iff slashStr.data key.data).mpr h)
    · exact h3 ((hasSubList_singleton_iff nullChar key.data).mpr h)
    · exact h5 ((any_isBannedCtrl_iff key.data).mpr h)
    · exact h4 (by simpa [maxKeyLength] using h)
  · intro hrej
    unfold validateS3Key
    split_ifs with h1 h2 h3 h4 h5
    · exact absurd (Or.inl ((data_eq_nil_iff key).mp h1)) hrej
    · simp only [Bool.or_eq_true] at h2
      rcases h2 with (h | h) | h
      · rcases (hasSubList_iff dotDotStr.data key.data).mp h with ⟨pre, post, hd⟩
        exact absurd (Or.inr (Or.inl ⟨pre, post, hd⟩)) hrej
      · rcases (hasSubList_iff slashSlashStr.data key.data).mp h with ⟨pre, post, hd⟩
        exact absurd (Or.inr (Or.inr (Or.inl ⟨pre, post, hd⟩))) hrej
      · exact absurd (Or.inr (Or.inr (Or.inr (Or.inl
          ((startsWithList_iff slashStr.data key.data).mp h))))) hrej
    · exact absurd (Or.inr (Or.inr (Or.inr (Or.inr (Or.inl
        ((hasSubList_singleton_iff nullChar key.data).mp h3)))))) hrej
    · exact absurd (Or.inr (Or.inr (Or.inr (Or.inr (Or.inr (Or.inr
        (by simpa [maxKeyLength] using h4))))))) hrej
    · exact absurd (Or.inr (Or.inr (Or.inr (Or.inr (Or.inr (Or.inl
        ((any_isBannedCtrl_iff key.data).mp h5))))))) hrej
    · rfl

def exGoodKey : String := "2024/photo.jpg"

/-- Witness for C3: the validator's acceptance of a concrete well-formed
key transported through the characterization. -/
theorem validateS3Key_accepts_iff_witness : ¬ SpecRejectsKey exGoodKey :=
  (validateS3Key_accepts_iff exGoodKey).mp (by rfl)

/-! Object-store model: an association list from keys to opaque blobs,
plus a trace of the store calls an operation issues (`HeadObject`,
`GetObject`, `PutObject`, `DeleteObject`). -/

abbrev Blob := String
abbrev Store := List (String × Blob)

inductive S3Op where
  | headOp (key : String)
  | getOp (key : String)
  | putOp (key : String)
  | delOp (key : String)
deriving DecidableEq, Repr

def Store.lookup (s : Store) (k : String) : Option Blob :=
  match s.find? (fun p => p.1 == k) with
  | some p => some p.2
  | none => none

def Store.insert (s : Store) (k : String) (b : Blob) : Store :=
  (k, b) :: s

def Store.erase (s : Store) (k : String) : Store :=
  s.filter (fun p => p.1 ≠ k)

theorem Store.lookup_insert (s : Store) (k : String) (b : Blob) :
    Store.lookup (Store.insert s k b) k = some b := by
  simp [Store.lookup, Store.insert, List.find?]

/-! Derivative Generator (`backend/thumbnail-generator/thumbnailUtils.ts`).
The `sharp` image codec is an external collaborator: the re-encoding
pipelines are passed in as opaque blob transformers. -/

def thumbPrefixStr : String := "thumbnails/"
def previewPrefixStr : String := "previews/"
def supportedImageExts : List String := [r".jpg", r".jpeg", r".png", r".gif", r".webp"]

/- ASCII fragment of JS `toLowerCase` (tags and extensions in the claims
   are ASCII). -/
def charToLower (c : Char) : Char :=
  if 65 ≤ c.toNat ∧ c.toNat ≤ 90 then Char.ofNat (c.toNat + 32) else c

def listToLower (l : List Char) : List Char := l.map charToLower

def endsWithList (sub l : List Char) : Bool :=
  startsWithList sub.reverse l.reverse

def isImageFile (key : String) : Bool :=
  supportedImageExts.any (fun ext => endsWithList ext.data (listToLower key.data))

def isThumbnailFile (key : String) : Bool :=
  startsWithList thumbPrefixStr.data key.data

def isPreviewFile (key : String) : Bool :=
  startsWithList previewPrefixStr.data key.data

def isGeneratedImageFile (key : String) : Bool :=
  isThumbnailFile key || isPreviewFile key

def getThumbnailKey (originalKey : String) : String :=
  thumbPrefixStr ++ originalKey

def getPreviewKey (originalKey : String) : String :=
  previewPrefixStr ++ originalKey

structure ThumbResult where
  success : Bool
  thumbnailKey : Option String := none
  error : Option String := none
deriving DecidableEq, Repr

structure PreviewResult where
  success : Bool
  previewKey : Option String := none
  error : Option String := none
deriving DecidableEq, Repr

def errSkipThumb : String := "Skipping thumbnail file"
def errSkipGenerated : String := "Skipping generated image file"
def errNotImage : String := "Not an image file"
def errThumbExists : String := "Thumbnail already exists"
def errPreviewExists : String := "Preview already exists"
/- Stand-in for the message of the SDK error thrown by `GetObject` on a
   missing key; the catch block stringifies it into the result. -/
def errNoSuchKey : String := "NoSuchKey"

/- `generateThumbnail`: the existence probe is the `HeadObject` call
   (`thumbnailExists`), the download is `GetObject`, the upload is
   `PutObject`.  Store I/O failures other than a missing key are not
   modelled; the returned trace lists the store calls in issue order. -/
def generateThumbnail (sharpThumb : Blob → Blob) (store : Store) (imageKey : String) :
    ThumbResult × Store × List S3Op :=
  if isThumbnailFile imageKey then
    ({success := false, error := some errSkipThumb}, store, [])
  else if !(isImageFile imageKey) then
    ({success := false, error := some errNotImage}, store, [])
  else
    let thumbnailKey := getThumbnailKey imageKey
    match Store.lookup store thumbnailKey with
    | some _ =>
      ({success := false, error := some errThumbExists, thumbnailKey := some thumbnailKey},
        store, [S3Op.headOp thumbnailKey])
    | none =>
      match Store.lookup store imageKey with
      | none =>
        ({success := false, error := some errNoSuchKey}, store,
          [S3Op.headOp thumbnailKey, S3Op.getOp imageKey])
      | some body =>
        ({success := true, thumbnailKey := some thumbnailKey},
          Store.insert store thumbnailKey (sharpThumb body),
          [S3Op.headOp thumbnailKey, S3Op.getOp imageKey, S3Op.putOp thumbnailKey])

/- `generatePreview`: identical structure, but the recursion guard tests
   both derivative prefixes (`isGeneratedImageFile`). -/
def generatePreview (sharpPreview : Blob → Blob) (store : Store) (imageKey : String) :
    PreviewResult × Store × List S3Op :=
  if isGeneratedImageFile imageKey then
    ({success := false, error := some errSkipGenerated}, store, [])
  else if !(isImageFile imageKey) then
    ({success := false, error := some errNotImage}, store, [])
  else
    let previewKey := getPreviewKey imageKey
    match Store.lookup store previewKey with
    | some _ =>
      ({success := false, error := some errPreviewExists, previewKey := some previewKey},
        store, [S3Op.headOp previewKey])
    | none =>
      match Store.lookup store imageKey with
      | none =>
        ({success := false, error := some errNoSuchKey}, store,
          [S3Op.headOp previewKey, S3Op.getOp imageKey])
      | some body =>
        ({success := true, previewKey := some previewKey},
          Store.insert store previewKey (sharpPreview body),
          [S3Op.headOp previewKey, S3Op.getOp imageKey, S3Op.putOp previewKey])

/-! Preview target dimensions (`generatePreview`, lines 226-247).  JS
numbers are embedded as exact rationals; `Math.round` is
`fun x => Int.floor (x + 1/2)` (JS rounds half-up). -/

def previewMaxWidth : Nat := 1920
def previewMaxHeight : Nat := 1080

def jsRound (q : ℚ) : ℤ := Int.floor (q + 1/2)

def previewTargetDims (w h : Nat) : ℤ × ℤ :=
  if w ≤ previewMaxWidth ∧ h ≤ previewMaxHeight then ((w : ℤ), (h : ℤ))
  else
    let widthRatio : ℚ := (previewMaxWidth : ℚ) / (w : ℚ)
    let heightRatio : ℚ := (previewMaxHeight : ℚ) / (h : ℚ)
    let ratio := min widthRatio heightRatio
    (jsRound ((w : ℚ) * ratio), jsRound ((h : ℚ) * ratio))

/-- Claim C6: preview generation never upscales — an original that fits
within 1920 by 1080 keeps its dimensions exactly; a larger original is
scaled by the minimum of the two axis ratios and rounded, and each
target dimension is bounded by the 1920 by 1080 box and by the original
dimension. -/
theorem previewTargetDims_spec (w h : Nat) (hw : 0 < w) (hh : 0 < h) :
    (w ≤ 1920 ∧ h ≤ 1080 → previewTargetDims w h = ((w : ℤ), (h : ℤ))) ∧
    (¬(w ≤ 1920 ∧ h ≤ 1080) →
      previewTargetDims w h =
        (jsRound ((w : ℚ) * min ((1920 : ℚ) / (w : ℚ)) ((1080 : ℚ) / (h : ℚ))),
         jsRound ((h : ℚ) * min ((1920 : ℚ) / (w : ℚ)) ((1080 : ℚ) / (h : ℚ)))) ∧
      (previewTargetDims w h).1 ≤ 1920 ∧ (previewTargetDims w h).2 ≤ 1080 ∧
      (previewTargetDims w h).1 ≤ (w : ℤ) ∧ (previewTargetDims w h).2 ≤ (h : ℤ)) := by
  have hwq : (0 : ℚ) < (w : ℚ) := by exact_mod_cast hw
  have hhq : (0 : ℚ) < (h : ℚ) := by exact_mod_cast hh
  constructor
  · intro hfit
    simp [previewTargetDims, previewMaxWidth, previewMaxHeight, hfit.1, hfit.2]
  · intro hbig
    have hdims : previewTargetDims w h =
        (jsRound ((w : ℚ) * min ((1920 : ℚ) / (w : ℚ)) ((1080 : ℚ) / (h : ℚ))),
         jsRound ((h : ℚ) * min ((1920 : ℚ) / (w : ℚ)) ((1080 : ℚ) / (h : ℚ)))) := by
      simp only [previewTargetDims, previewMaxWidth, previewMaxHeight]
      rw [if_neg (by exact_mod_cast hbig)]
      norm_num
    set r : ℚ := min ((1920 : ℚ) / (w : ℚ)) ((1080 : ℚ) / (h : ℚ)) with hr
    have hrw : r ≤ (1920 : ℚ) / (w : ℚ) := min_le_left _ _
    have hrh : r ≤ (1080 : ℚ) / (h : ℚ) := min_le_right _ _
    have hwr : (w : ℚ) * r ≤ 1920 := by
      calc (w : ℚ) * r ≤ (w : ℚ) * ((1920 : ℚ) / (w : ℚ)) :=
            mul_le_mul_of_nonneg_left hrw (le_of_lt hwq)
        _ = 1920 := by field_simp
    have hhr : (h : ℚ) * r ≤ 1080 := by
      calc (h : ℚ) * r ≤ (h : ℚ) * ((1080 : ℚ) / (h : ℚ)) :=
            mul_le_mul_of_nonneg_left hrh (le_of_lt hhq)
        _ = 1080 := by field_simp
    have hrlt : r < 1 := by
      rcases not_and_or.mp hbig with hwb | hhb
      · have hcast : (1920 : ℚ) < (w : ℚ) := by exact_mod_cast Nat.lt_of_not_le hwb
        exact lt_of_le_of_lt hrw ((div_lt_one hwq).mpr hcast)
      · have hcast : (1080 : ℚ) < (h : ℚ) := by exact_mod_cast Nat.lt_of_not_le hhb
        exact lt_of_le_of_lt hrh ((div_lt_one hhq).mpr hcast)
    have hwlt : (w : ℚ) * r < (w : ℚ) := by
      calc (w : ℚ) * r < (w : ℚ) * 1 := by
            exact mul_lt_mul_of_pos_left hrlt hwq
        _ = (w : ℚ) := mul_one _
    have hhlt : (h : ℚ) * r < (h : ℚ) := by
      calc (h : ℚ) * r < (h : ℚ) * 1 := by
            exact mul_lt_mul_of_pos_left hrlt hhq
        _ = (h : ℚ) := mul_one _
    refine ⟨hdims, ?_, ?_, ?_, ?_⟩
    · rw [hdims]
      show jsRound ((w : ℚ) * r) ≤ 1920
      have : (w : ℚ) * r + 1/2 < (1920 : ℤ) + 1 := by push_cast; linarith
      exact Int.le_of_lt_add_one ((Int.floor_lt).mpr (by push_cast at this ⊢; linarith))
    · rw [hdims]
      show jsRound ((h : ℚ) * r) ≤ 1080
      have : (h : ℚ) * r + 1/2 < (1080 : ℤ) + 1 := by push_cast; linarith
      exact Int.le_of_lt_add_one ((Int.floor_lt).mpr (by push_cast at this ⊢; linarith))
    · rw [hdims]
      show jsRound ((w : ℚ) * r) ≤ (w : ℤ)
      have hlt : (w : ℚ) * r + 1/2 < (((w : ℤ) + 1 : ℤ) : ℚ) := by push_cast; linarith
      exact Int.le_of_lt_add_one ((Int.floor_lt).mpr hlt)
    · rw [hdims]
      show jsRound ((h : ℚ) * r) ≤ (h : ℤ)
      have hlt : (h : ℚ) * r + 1/2 < (((h : ℤ) + 1 : ℤ) : ℚ) := by push_cast; linarith
      exact Int.le_of_lt_add_one ((Int.floor_lt).mpr hlt)

/-- Witness for C6: a 800 by 600 original keeps its dimensions; a 3840 by
2160 original is bounded by the preview box. -/
theorem previewTargetDims_spec_witness :
    previewTargetDims 800 600 = ((800 : ℤ), (600 : ℤ)) ∧
    (previewTargetDims 3840 2160).1 ≤ 1920 ∧ (previewTargetDims 3840 2160).2 ≤ 1080 := by
  have h1 := previewTargetDims_spec 800 600 (by norm_num) (by norm_num)
  have h2 := previewTargetDims_spec 3840 2160 (by norm_num) (by norm_num)
  have hbig : ¬((3840 : Nat) ≤ 1920 ∧ (2160 : Nat) ≤ 1080) := by norm_num
  exact ⟨h1.1 (by norm_num), (h2.2 hbig).2.1, (h2.2 hbig).2.2.1⟩

/-! Claims C2 and C4: the recursion guards and the at-most-once
existence probe of the Derivative Generator. -/

def alreadyExistsStr : String := "already exists"
def exThumbInputKey : String := "thumbnails/x.jpg"
def exPreviewInputKey : String := "previews/a.jpg"
def exOrigKey : String := "a.jpg"
def exBody : Blob := "ORIGINALBYTES"
def exStoreGen : Store := [(exOrigKey, exBody)]
def exStorePreviewOnly : Store := [(exPreviewInputKey, exBody)]

/-- Counterexample to claim C2: a key under the `previews/` prefix is not
skipped by `generateThumbnail` — the call issues an existence probe, a
download and an upload (so it reads and writes the store) and succeeds,
although the claim requires a skip with no store read or write for both
derivative kinds. -/
theorem generateThumbnail_processes_preview_key :
    isPreviewFile exPreviewInputKey = true ∧
    (generateThumbnail id exStorePreviewOnly exPreviewInputKey).1.success = true ∧
    (generateThumbnail id exStorePreviewOnly exPreviewInputKey).2.2 ≠ ([] : List S3Op) := by
  refine ⟨by decide, by decide, ?_⟩
  decide

/-- Claim C2 (amended): `generatePreview` skips, reading and writing
nothing, whenever the key lies under either derivative prefix, while
`generateThumbnail` skips only keys under the `thumbnails/` prefix; both
skips return the unchanged store and an empty trace of store calls. -/
theorem generate_skips_derivative_prefixes (f g : Blob → Blob) (store : Store) (key : String) :
    (isThumbnailFile key = true →
      generateThumbnail f store key =
        ({success := false, error := some errSkipThumb}, store, ([] : List S3Op))) ∧
    (isGeneratedImageFile key = true →
      generatePreview g store key =
        ({success := false, error := some errSkipGenerated}, store, ([] : List S3Op))) := by
  constructor
  · intro h
    simp [generateThumbnail, h]
  · intro h
    simp [generatePreview, h]

/-- Witness for the amended C2 at concrete keys under each prefix. -/
theorem generate_skips_derivative_prefixes_witness :
    generateThumbnail id exStoreGen exThumbInputKey =
      ({success := false, error := some errSkipThumb}, exStoreGen, ([] : List S3Op)) ∧
    generatePreview id exStoreGen exPreviewInputKey =
      ({success := false, error := some errSkipGenerated}, exStoreGen, ([] : List S3Op)) :=
  ⟨(generate_skips_derivative_prefixes id id exStoreGen exThumbInputKey).1 (by decide),
   (generate_skips_derivative_prefixes id id exStoreGen exPreviewInputKey).2 (by decide)⟩

theorem generateThumbnail_already_hit (f : Blob → Blob) (store : Store) (key : String)
    (b : Blob) (h1 : isThumbnailFile key = false) (h2 : isImageFile key = true)
    (hex : Store.lookup store (getThumbnailKey key) = some b) :
    generateThumbnail f store key =
      ({success := false, thumbnailKey := some (getThumbnailKey key),
        error := some errThumbExists}, store, [S3Op.headOp (getThumbnailKey key)]) := by
  simp [generateThumbnail, h1, h2, hex]

theorem generatePreview_already_hit (f : Blob → Blob) (store : Store) (key : String)
    (b : Blob) (h1 : isGeneratedImageFile key = false) (h2 : isImageFile key = true)
    (hex : Store.lookup store (getPreviewKey key) = some b) :
    generatePreview f store key =
      ({success := false, previewKey := some (getPreviewKey key),
        error := some errPreviewExists}, store, [S3Op.headOp (getPreviewKey key)]) := by
  simp [generatePreview, h1, h2, hex]

theorem generateThumbnail_success_inv (f : Blob → Blob) (store : Store) (key : String)
    (hsucc : (generateThumbnail f store key).1.success = true) :
    isThumbnailFile key = false ∧ isImageFile key = true ∧
    ∃ body, Store.lookup store key = some body ∧
      (generateThumbnail f store key).2.1 =
        Store.insert store (getThumbnailKey key) (f body) := by
  by_cases h1 : isThumbnailFile key
  · simp [generateThumbnail, h1] at hsucc
  · by_cases h2 : isImageFile key
    · cases hex : Store.lookup store (getThumbnailKey key) with
      | some b =>
        simp [generateThumbnail, h1, h2, hex] at hsucc
      | none =>
        cases horig : Store.lookup store key with
        | none => simp [generateThumbnail, h1, h2, hex, horig] at hsucc
        | some body =>
          refine ⟨by simpa using h1, by simpa using h2, body, rfl, ?_⟩
          simp [generateThumbnail, h1, h2, hex, horig]
    · simp [generateThumbnail, h1, h2] at hsucc

theorem generatePreview_success_inv (f : Blob → Blob) (store : Store) (key : String)
    (hsucc : (generatePreview f store key).1.success = true) :
    isGeneratedImageFile key = false ∧ isImageFile key = true ∧
    ∃ body, Store.lookup store key = some body ∧
      (generatePreview f store key).2.1 =
        Store.insert store (getPreviewKey key) (f body) := by
  by_cases h1 : isGeneratedImageFile key
  · simp [generatePreview, h1] at hsucc
  · by_cases h2 : isImageFile key
    · cases hex : Store.lookup store (getPreviewKey key) with
      | some b =>
        simp [generatePreview, h1, h2, hex] at hsucc
      | none =>
        cases horig : Store.lookup store key with
        | none => simp [generatePreview, h1, h2, hex, horig] at hsucc
        | some body =>
          refine ⟨by simpa using h1, by simpa using h2, body, rfl, ?_⟩
          simp [generatePreview, h1, h2, hex, horig]
    · simp [generatePreview, h1, h2] at hsucc

/-- Claim C4 (amended): when the derivative of the requested kind already
exists, `generate` probes for existence (a single `HeadObject` call),
performs no write, leaves the store — hence the existing derivative
bytes — unchanged, and returns `success:false` with the kind-specific
message `"Thumbnail already exists"` / `"Preview already exists"`; in
particular a second call after a successful generation returns exactly
that result. -/
theorem generate_already_exists_idempotent (f : Blob → Blob) (store : Store) (key : String) :
    (∀ b, isThumbnailFile key = false → isImageFile key = true →
      Store.lookup store (getThumbnailKey key) = some b →
      generateThumbnail f store key =
        ({success := false, thumbnailKey := some (getThumbnailKey key),
          error := some errThumbExists}, store, [S3Op.headOp (getThumbnailKey key)])) ∧
    (∀ b, isGeneratedImageFile key = false → isImageFile key = true →
      Store.lookup store (getPreviewKey key) = some b →
      generatePreview f store key =
        ({success := false, previewKey := some (getPreviewKey key),
          error := some errPreviewExists}, store, [S3Op.headOp (getPreviewKey key)])) ∧
    ((generateThumbnail f store key).1.success = true →
      generateThumbnail f (generateThumbnail f store key).2.1 key =
        ({success := false, thumbnailKey := some (getThumbnailKey key),
          error := some errThumbExists}, (generateThumbnail f store key).2.1,
          [S3Op.headOp (getThumbnailKey key)])) ∧
    ((generatePreview f store key).1.success = true →
      generatePreview f (generatePreview f store key).2.1 key =
        ({success := false, previewKey := some (getPreviewKey key),
          error := some errPreviewExists}, (generatePreview f store key).2.1,
          [S3Op.headOp (getPreviewKey key)])) := by
  refine ⟨?_, ?_, ?_, ?_⟩
  · intro b h1 h2 hex
    exact generateThumbnail_already_hit f store key b h1 h2 hex
  · intro b h1 h2 hex
    exact generatePreview_already_hit f store key b h1 h2 hex
  · intro hsucc
    obtain ⟨h1, h2, body, horig, hst⟩ := generateThumbnail_success_inv f store key hsucc
    have hex : Store.lookup (generateThumbnail f store key).2.1 (getThumbnailKey key) =
        some (f body) := by
      rw [hst]
      exact Store.lookup_insert store (getThumbnailKey key) (f body)
    exact generateThumbnail_already_hit f _ key (f body) h1 h2 hex
  · intro hsucc
    obtain ⟨h1, h2, body, horig, hst⟩ := generatePreview_success_inv f store key hsucc
    have hex : Store.lookup (generatePreview f store key).2.1 (getPreviewKey key) =
        some (f body) := by
      rw [hst]
      exact Store.lookup_insert store (getPreviewKey key) (f body)
    exact generatePreview_already_hit f _ key (f body) h1 h2 hex

/-- Witness for the amended C4: generating twice for `"a.jpg"` yields the
already-exists result on the second call, with the store unchanged by
that call. -/
theorem generate_already_exists_idempotent_witness :
    (generateThumbnail id (generateThumbnail id exStoreGen exOrigKey).2.1 exOrigKey).1 =
      {success := false, thumbnailKey := some (getThumbnailKey exOrigKey),
        error := some errThumbExists} ∧
    (generateThumbnail id (generateThumbnail id exStoreGen exOrigKey).2.1 exOrigKey).2.1 =
      (generateThumbnail id exStoreGen exOrigKey).2.1 := by
  have h := (generate_already_exists_idempotent id exStoreGen exOrigKey).2.2.1 (by decide)
  rw [h]
  exact ⟨rfl, rfl⟩

/-- Counterexample to claim C4 as stated: on the second call for
`"a.jpg"` the error is the kind-specific string `"Thumbnail already
exists"`, not the plain string `"already exists"` the claim requires. -/
theorem generateThumbnail_second_error_message :
    (generateThumbnail id (generateThumbnail id exStoreGen exOrigKey).2.1 exOrigKey).1.error =
      some errThumbExists ∧
    (generateThumbnail id (generateThumbnail id exStoreGen exOrigKey).2.1 exOrigKey).1.error ≠
      some alreadyExistsStr := by
  constructor
  · decide
  · decide

/-! Metadata Index Adapter (`services/dynamodbService.ts`). -/

structure ImageMetadata where
  key : String
  name : String
  size : Nat
  lastModified : Int
  tags : List String := []
  tagCount : Nat
  folder : String
  thumbnailUrl : Option String := none
  previewUrl : Option String := none
  updatedAt : Int
deriving DecidableEq, Repr

/- A Metadata Index table, keyed by `key`; only key membership matters to
   the claims below. -/
abbrev MetaTable := List String

/- `deleteImageMetadata`: a point `DeleteCommand` on the partition key. -/
def deleteImageMetadata (table : MetaTable) (key : String) : MetaTable :=
  table.filter (fun k => k ≠ key)

/-! Claim C1: the `DELETE /delete` route (`routes/s3.ts`, lines 301-349).
The route deletes the original object, probes for the thumbnail and
deletes it when present, and returns.  It issues no delete for the
`previews/`-prefixed derivative and never calls `deleteImageMetadata`
(the routes file does not import the DynamoDB service), so the preview
object and the Metadata Index Record survive.  The bucket-configured
check is elided (a deployment constant). -/

structure RouteResponse where
  status : Nat
  success : Bool
deriving DecidableEq, Repr

def handleDeleteImage (store : Store) (table : MetaTable) (key : String) :
    RouteResponse × Store × MetaTable :=
  if key.data = [] then ({status := 400, success := false}, store, table)
  else
    match validateS3Key key with
    | Except.error _ => ({status := 400, success := false}, store, table)
    | Except.ok _ =>
      let store1 := Store.erase store key
      let thumbnailKey := getThumbnailKey key
      let store2 :=
        match Store.lookup store1 thumbnailKey with
        | some _ => Store.erase store1 thumbnailKey
        | none => store1
      ({status := 200, success := true}, store2, table)

def tripKey : String := "2024/trip.jpg"
def tripThumbKey : String := "thumbnails/2024/trip.jpg"
def tripPreviewKey : String := "previews/2024/trip.jpg"
def storeBeforeDelete : Store := [(tripKey, exBody), (tripThumbKey, exBody), (tripPreviewKey, exBody)]
def tableBeforeDelete : MetaTable := [tripKey]

/-- Claim C1 evaluated at the failing input `"2024/trip.jpg"`: the delete
succeeds and removes the original and the thumbnail, but the
`previews/`-prefixed derivative and the Metadata Index Record both
survive, contradicting the claimed four-way cascade. -/
theorem handleDeleteImage_leaves_preview_and_metadata :
    (handleDeleteImage storeBeforeDelete tableBeforeDelete tripKey).1.success = true ∧
    Store.lookup (handleDeleteImage storeBeforeDelete tableBeforeDelete tripKey).2.1
      tripKey = none ∧
    Store.lookup (handleDeleteImage storeBeforeDelete tableBeforeDelete tripKey).2.1
      tripThumbKey = none ∧
    Store.lookup (handleDeleteImage storeBeforeDelete tableBeforeDelete tripKey).2.1
      tripPreviewKey = some exBody ∧
    (handleDeleteImage storeBeforeDelete tableBeforeDelete tripKey).2.2 = [tripKey] := by
  refine ⟨by decide, by decide, by decide, by decide, by decide⟩

/-! Share-Token Service (`services/shareService.ts`, shown in the
repository README). -/

structure ShareRecord where
  shareToken : String
  imageKey : String
  createdAt : Int
  expiresAt : Int
  createdBy : Option String := none
deriving DecidableEq, Repr

inductive DbOp where
  | getOp (key : String)
  | putOp (key : String)
  | delOp (key : String)
deriving DecidableEq, Repr

/- `getShareInfo`: a point `GetCommand` on the token, a strict expiry
   comparison `expiresAt < Date.now()`, and no mutation. -/
def getShareInfo (table : List ShareRecord) (now : Int) (token : String) :
    Option ShareRecord × List DbOp :=
  match table.find? (fun r => r.shareToken == token) with
  | none => (none, [DbOp.getOp token])
  | some shareRecord =>
    if shareRecord.expiresAt < now then (none, [DbOp.getOp token])
    else (some shareRecord, [DbOp.getOp token])

/-- Claim C5 (amended): `resolve` returns null exactly when the token is
absent or the record's `expiresAt` is strictly before the current time —
so a record one millisecond past expiry is indistinguishable from an
unknown token — while a record whose `expiresAt` equals the current
time is still returned; otherwise the stored record is returned, and the
resolution issues only a read (never a delete). -/
theorem getShareInfo_spec (table : List ShareRecord) (now : Int) (token : String) :
    ((getShareInfo table now token).1 = none ↔
      ∀ r, table.find? (fun x => x.shareToken == token) = some r → r.expiresAt < now) ∧
    ((getShareInfo table now token).1 ≠ none →
      (getShareInfo table now token).1 = table.find? (fun x => x.shareToken == token)) ∧
    ((getShareInfo table now token).2 = [DbOp.getOp token]) ∧
    (∀ r, table.find? (fun x => x.shareToken == token) = some r →
      r.expiresAt = now - 1 → (getShareInfo table now token).1 = none) := by
  cases hfind : table.find? (fun x => x.shareToken == token) with
  | none =>
    refine ⟨?_, ?_, ?_, ?_⟩
    · simp [getShareInfo, hfind]
    · intro hne
      simp [getShareInfo, hfind] at hne
    · simp [getShareInfo, hfind]
    · intro r hr
      simp [hfind] at hr
  | some shareRecord =>
    by_cases hexp : shareRecord.expiresAt < now
    · refine ⟨?_, ?_, ?_, ?_⟩
      · simp only [getShareInfo, hfind, if_pos hexp]
        constructor
        · intro _ r hr
          cases hr
          exact hexp
        · intro _
          trivial
      · intro hne
        simp [getShareInfo, hfind, if_pos hexp] at hne
      · simp [getShareInfo, hfind, if_pos hexp]
      · intro r hr _
        simp [getShareInfo, hfind, if_pos hexp]
    · refine ⟨?_, ?_, ?_, ?_⟩
      · simp only [getShareInfo, hfind, if_neg hexp]
        constructor
        · intro hsome
          simp at hsome
        · intro hall
          exact absurd (hall shareRecord rfl) hexp
      · intro _
        simp [getShareInfo, hfind, if_neg hexp]
      · simp [getShareInfo, hfind, if_neg hexp]
      · intro r hr hone
        have hrr : shareRecord = r := Option.some.inj hr
        exact absurd (by omega : r.expiresAt < now) (hrr ▸ hexp)

def exShareToken : String := "sharetok"
def exShareImage : String := "img.jpg"
def exShareRec : ShareRecord :=
  {shareToken := exShareToken, imageKey := exShareImage, createdAt := 0, expiresAt := 100}

/-- Witness for the amended C5: a record expiring at 100 resolves to null
at time 101 (one past expiry), exactly like an unknown token. -/
theorem getShareInfo_spec_witness :
    (getShareInfo [exShareRec] 101 exShareToken).1 = none :=
  (getShareInfo_spec [exShareRec] 101 exShareToken).2.2.2 exShareRec (by decide) (by decide)

/-- Counterexample to claim C5 as stated: at the boundary where
`expiresAt` equals the current time — so the expiry is not in the future
— the record is still returned, not null. -/
theorem getShareInfo_boundary_returns_record :
    exShareRec.expiresAt ≤ 100 ∧
    (getShareInfo [exShareRec] 100 exShareToken).1 = some exShareRec := by
  refine ⟨by decide, by decide⟩

/-! Claim C7: `listImagesWithSort` (part_003, lines 143-208). -/

inductive SortBy where
  | name | date | size | tags
deriving DecidableEq, Repr

inductive SortOrder where
  | asc | desc
deriving DecidableEq, Repr

def gsiNameStr : String := "GSI-name"
def gsiDateStr : String := "GSI-date"
def gsiSizeStr : String := "GSI-size"
def gsiTagsStr : String := "GSI-tags"
def attrNameStr : String := "name"
def attrLastModifiedStr : String := "lastModified"
def attrSizeStr : String := "size"
def attrTagCountStr : String := "tagCount"

/- The `switch (sortBy)` of `listImagesWithSort`: one secondary index and
   one range attribute per sort field. -/
def gsiFor : SortBy → String × String
  | SortBy.name => (gsiNameStr, attrNameStr)
  | SortBy.date => (gsiDateStr, attrLastModifiedStr)
  | SortBy.size => (gsiSizeStr, attrSizeStr)
  | SortBy.tags => (gsiTagsStr, attrTagCountStr)

abbrev DynamoDBKey := List (String × String)

structure QueryRequest where
  indexName : String
  folderEq : String
  scanIndexForward : Bool
  limit : Nat
  exclusiveStartKey : Option DynamoDBKey
deriving DecidableEq, Repr

structure QueryResponse where
  items : List ImageMetadata
  lastEvaluatedKey : Option DynamoDBKey
deriving DecidableEq, Repr

/- The `QueryCommand` the adapter sends: `ScanIndexForward` is
   `sortOrder === "asc"`. -/
def buildListQuery (folder : String) (sortBy : SortBy) (sortOrder : SortOrder)
    (limit : Nat) (lastEvaluatedKey : Option DynamoDBKey) : QueryRequest :=
  {indexName := (gsiFor sortBy).1, folderEq := folder,
   scanIndexForward := sortOrder == SortOrder.asc, limit := limit,
   exclusiveStartKey := lastEvaluatedKey}

/- `listImagesWithSort` relative to a store oracle `send`: the response
   items and pagination key are returned verbatim. -/
def listImagesWithSort (send : QueryRequest → QueryResponse) (folder : String)
    (sortBy : SortBy) (sortOrder : SortOrder) (limit : Nat)
    (lastEvaluatedKey : Option DynamoDBKey) :
    List ImageMetadata × Option DynamoDBKey :=
  let response := send (buildListQuery folder sortBy sortOrder limit lastEvaluatedKey)
  (response.items, response.lastEvaluatedKey)

/-- Claim C7: for every folder, sort field and limit, a descending query
is executed against the single secondary index for that sort field with
the store's native reverse-scan order (`ScanIndexForward` false, versus
true for ascending), and the store's items and pagination cursor are
returned without any client-side reversal. -/
theorem listImagesWithSort_desc_native (send : QueryRequest → QueryResponse)
    (folder : String) (sortBy : SortBy) (limit : Nat)
    (lek : Option DynamoDBKey) :
    (buildListQuery folder sortBy SortOrder.desc limit lek).scanIndexForward = false ∧
    (buildListQuery folder sortBy SortOrder.asc limit lek).scanIndexForward = true ∧
    (buildListQuery folder sortBy SortOrder.desc limit lek).indexName = (gsiFor sortBy).1 ∧
    (buildListQuery folder sortBy SortOrder.desc limit lek).limit = limit ∧
    gsiFor SortBy.name = (gsiNameStr, attrNameStr) ∧
    gsiFor SortBy.date = (gsiDateStr, attrLastModifiedStr) ∧
    gsiFor SortBy.size = (gsiSizeStr, attrSizeStr) ∧
    gsiFor SortBy.tags = (gsiTagsStr, attrTagCountStr) ∧
    listImagesWithSort send folder sortBy SortOrder.desc limit lek =
      ((send (buildListQuery folder sortBy SortOrder.desc limit lek)).items,
       (send (buildListQuery folder sortBy SortOrder.desc limit lek)).lastEvaluatedKey) := by
  refine ⟨by simp [buildListQuery], by simp [buildListQuery], rfl, rfl,
    rfl, rfl, rfl, rfl, rfl⟩

/-! Claim C8: `batchWriteImageMetadata` (part_003, lines 213-243).  The
source iterates `for (let i = 0; i < items.length; i += 25)`, slicing one
chunk per iteration and awaiting one `BatchWriteCommand` per chunk before
the next; the calls are modelled as the list of chunks in issue order. -/

def batchWriteSize : Nat := 25

def chunksGo (bs : Nat) : Nat → List α → List (List α)
  | _, [] => []
  | 0, _ :: _ => []
  | Nat.succ fuel, a :: rest => (a :: rest).take bs :: chunksGo bs fuel ((a :: rest).drop bs)

def batchWriteCalls (items : List ImageMetadata) : List (List ImageMetadata) :=
  chunksGo batchWriteSize items.length items

theorem chunksGo_flatten (bs : Nat) (hbs : 0 < bs) :
    ∀ (fuel : Nat) (l : List α), l.length ≤ fuel → (chunksGo bs fuel l).flatten = l := by
  intro fuel
  induction fuel with
  | zero =>
    intro l hl
    cases l with
    | nil => rfl
    | cons a rest => simp at hl
  | succ fuel ih =>
    intro l hl
    cases l with
    | nil => rfl
    | cons a rest =>
      have hdrop : ((a :: rest).drop bs).length ≤ fuel := by
        simp only [List.length_drop, List.length_cons]
        simp only [List.length_cons] at hl
        omega
      simp only [chunksGo, List.flatten_cons, ih _ hdrop, List.take_append_drop]

theorem chunksGo_bounded (bs : Nat) (hbs : 0 < bs) :
    ∀ (fuel : Nat) (l : List α) (c : List α), c ∈ chunksGo bs fuel l →
      c.length ≤ bs ∧ c ≠ [] := by
  intro fuel
  induction fuel with
  | zero =>
    intro l c hc
    cases l with
    | nil => simp [chunksGo] at hc
    | cons a rest => simp [chunksGo] at hc
  | succ fuel ih =>
    intro l c hc
    cases l with
    | nil => simp [chunksGo] at hc
    | cons a rest =>
      simp only [chunksGo, List.mem_cons] at hc
      rcases hc with hc | hc
      · subst hc
        constructor
        · exact List.length_take_le bs (a :: rest)
        · cases bs with
          | zero => exact absurd hbs (lt_irrefl 0)
          | succ b => simp [List.take]
      · exact ih _ c hc

def mkMeta (i : Nat) : ImageMetadata :=
  {key := toString i, name := toString i, size := i, lastModified := 0,
   tagCount := 0, folder := "", updatedAt := 0}

def items53 : List ImageMetadata := (List.range 53).map mkMeta
def items3 : List ImageMetadata := (List.range 3).map mkMeta

/-- Claim C8: batch upsert splits the input into consecutive chunks of at
most 25 records preserving input order (the chunks concatenate back to
the input), one store call per chunk in order; 53 records produce
exactly 3 calls of 25, 25 and 3 records. -/
theorem batchWriteImageMetadata_chunks :
    (∀ items : List ImageMetadata, (batchWriteCalls items).flatten = items) ∧
    (∀ items : List ImageMetadata, ∀ c ∈ batchWriteCalls items, c.length ≤ 25 ∧ c ≠ []) ∧
    (batchWriteCalls items53).map List.length = [25, 25, 3] := by
  refine ⟨?_, ?_, ?_⟩
  · intro items
    exact chunksGo_flatten batchWriteSize (by decide) items.length items le_rfl
  · intro items c hc
    exact chunksGo_bounded batchWriteSize (by decide) items.length items c hc
  · rfl

/-- Witness for C8: the chunking facts applied at the concrete 3-record
and 53-record inputs. -/
theorem batchWriteImageMetadata_chunks_witness :
    (batchWriteCalls items3).flatten = items3 ∧ items3.length ≤ 25 := by
  have h := batchWriteImageMetadata_chunks
  have hmem : items3 ∈ batchWriteCalls items3 := by
    rw [show batchWriteCalls items3 = [items3] from rfl]
    exact List.mem_singleton.mpr rfl
  exact ⟨h.1 items3, (h.2.1 items3 items3 hmem).1⟩

/-! Tag Registry (`routes/tags.ts`).  JS `trim` removes leading and
trailing whitespace; the whitespace class is embedded for the code
points JS treats as whitespace that occur in tags (ASCII whitespace,
NBSP, the line separators and the BOM). -/

theorem toNat_ofNat_small (m : Nat) (h : m < 55296) : (Char.ofNat m).toNat = m := by
  have hv : m.isValidChar := Or.inl h
  simp only [Char.ofNat, hv, dite_true, Char.ofNatAux, Char.toNat]
  rfl

def isJsWhitespace (c : Char) : Bool :=
  decide ((9 ≤ c.toNat ∧ c.toNat ≤ 13) ∨ c.toNat = 32 ∨ c.toNat = 160 ∨
    c.toNat = 8232 ∨ c.toNat = 8233 ∨ c.toNat = 65279)

theorem charToLower_toNat (c : Char) :
    (65 ≤ c.toNat ∧ c.toNat ≤ 90 → (charToLower c).toNat = c.toNat + 32) ∧
    (¬(65 ≤ c.toNat ∧ c.toNat ≤ 90) → charToLower c = c) := by
  constructor
  · intro h
    simp only [charToLower, if_pos h]
    exact toNat_ofNat_small (c.toNat + 32) (by omega)
  · intro h
    simp [charToLower, if_neg h]

theorem charToLower_idem (c : Char) : charToLower (charToLower c) = charToLower c := by
  by_cases h : 65 ≤ c.toNat ∧ c.toNat ≤ 90
  · have ht := (charToLower_toNat c).1 h
    have hno : ¬(65 ≤ (charToLower c).toNat ∧ (charToLower c).toNat ≤ 90) := by omega
    exact (charToLower_toNat (charToLower c)).2 hno
  · rw [(charToLower_toNat c).2 h]
    exact (charToLower_toNat c).2 h

theorem isJsWhitespace_charToLower (c : Char) :
    isJsWhitespace (charToLower c) = isJsWhitespace c := by
  by_cases h : 65 ≤ c.toNat ∧ c.toNat ≤ 90
  · have ht := (charToLower_toNat c).1 h
    simp only [isJsWhitespace]
    rw [decide_eq_decide, ht]
    omega
  · rw [(charToLower_toNat c).2 h]

theorem dropWhile_head_false {α : Type} {p : α → Bool} :
    ∀ (l : List α) (a : α) (t : List α), List.dropWhile p l = a :: t → p a = false := by
  intro l
  induction l with
  | nil =>
    intro a t h
    simp [List.dropWhile] at h
  | cons b rest ih =>
    intro a t h
    by_cases hb : p b
    · rw [List.dropWhile_cons, if_pos hb] at h
      exact ih a t h
    · rw [List.dropWhile_cons, if_neg hb] at h
      cases h
      simpa using hb

theorem dropWhile_idem {α : Type} {p : α → Bool} (l : List α) :
    List.dropWhile p (List.dropWhile p l) = List.dropWhile p l := by
  cases h : List.dropWhile p l with
  | nil => simp
  | cons a t =>
    have ha : p a = false := dropWhile_head_false l a t h
    rw [List.dropWhile_cons, if_neg (by simp [ha])]

theorem dropWhile_decomp {α : Type} {p : α → Bool} :
    ∀ l : List α, ∃ s, l = s ++ List.dropWhile p l := by
  intro l
  induction l with
  | nil => exact ⟨[], rfl⟩
  | cons a rest ih =>
    by_cases ha : p a
    · rcases ih with ⟨s, hs⟩
      refine ⟨a :: s, ?_⟩
      rw [List.dropWhile_cons, if_pos ha, List.cons_append]
      exact congrArg (a :: ·) hs
    · refine ⟨[], ?_⟩
      rw [List.dropWhile_cons, if_neg ha, List.nil_append]

def trimLeftList (l : List Char) : List Char := l.dropWhile isJsWhitespace
def trimRightList (l : List Char) : List Char :=
  ((l.reverse).dropWhile isJsWhitespace).reverse
def jsTrimList (l : List Char) : List Char := trimRightList (trimLeftList l)

theorem trimLeft_idem (l : List Char) : trimLeftList (trimLeftList l) = trimLeftList l :=
  dropWhile_idem l

theorem trimRight_idem (l : List Char) : trimRightList (trimRightList l) = trimRightList l := by
  simp only [trimRightList, List.reverse_reverse, dropWhile_idem]

theorem trimLeft_of_trimRight (l : List Char) (hl : trimLeftList l = l) :
    trimLeftList (trimRightList l) = trimRightList l := by
  cases hw : trimRightList l with
  | nil => rfl
  | cons a t =>
    obtain ⟨s, hs⟩ := dropWhile_decomp (p := isJsWhitespace) l.reverse
    have hl2 : l = trimRightList l ++ s.reverse := by
      have hrev := congrArg List.reverse hs
      simpa [trimRightList, List.reverse_append] using hrev
    rw [hw] at hl2
    have hla : isJsWhitespace a = false := by
      by_cases hws : isJsWhitespace a
      · exfalso
        rw [hl2] at hl
        simp only [trimLeftList, List.cons_append, List.dropWhile_cons, if_pos hws] at hl
        obtain ⟨s2, hs2⟩ := dropWhile_decomp (p := isJsWhitespace) (t ++ s.reverse)
        rw [hl] at hs2
        have hlen := congrArg List.length hs2
        simp only [List.length_append, List.length_cons] at hlen
        omega
      · revert hws
        cases isJsWhitespace a <;> simp
    simp only [trimLeftList, List.dropWhile_cons]
    simp [hla]

theorem jsTrim_idem (l : List Char) : jsTrimList (jsTrimList l) = jsTrimList l := by
  unfold jsTrimList
  rw [trimLeft_of_trimRight (trimLeftList l) (trimLeft_idem l), trimRight_idem]

theorem dropWhile_map_charToLower (l : List Char) :
    List.dropWhile isJsWhitespace (l.map charToLower) =
      (List.dropWhile isJsWhitespace l).map charToLower := by
  induction l with
  | nil => rfl
  | cons a rest ih =>
    simp only [List.map_cons, List.dropWhile_cons, isJsWhitespace_charToLower]
    by_cases ha : isJsWhitespace a
    · rw [if_pos ha, if_pos ha, ih]
    · rw [if_neg ha, if_neg ha, List.map_cons]

theorem trimLeft_map (l : List Char) :
    trimLeftList (listToLower l) = listToLower (trimLeftList l) :=
  dropWhile_map_charToLower l

theorem trimRight_map (l : List Char) :
    trimRightList (listToLower l) = listToLower (trimRightList l) := by
  simp only [trimRightList, listToLower]
  rw [← List.map_reverse, dropWhile_map_charToLower, List.map_reverse]

theorem jsTrim_map (l : List Char) :
    jsTrimList (listToLower l) = listToLower (jsTrimList l) := by
  simp only [jsTrimList, trimLeft_map, trimRight_map]

theorem listToLower_idem (l : List Char) : listToLower (listToLower l) = listToLower l := by
  simp only [listToLower, List.map_map]
  exact List.map_congr_left (fun a _ => charToLower_idem a)

/- `tag.trim().toLowerCase()` from `normalizeTags`. -/
def normTag (t : String) : String := String.mk (listToLower (jsTrimList t.data))

theorem normTag_idem (t : String) : normTag (normTag t) = normTag t := by
  simp only [normTag]
  congr 1
  show listToLower (jsTrimList (listToLower (jsTrimList t.data))) =
    listToLower (jsTrimList t.data)
  rw [jsTrim_map, listToLower_idem, jsTrim_idem]

/- JS `new Set` keeps the first occurrence of every element in insertion
   order; `Array.from` reads the set back in that order. -/
def dedupAux (seen : List String) : List String → List String
  | [] => []
  | a :: rest => if a ∈ seen then dedupAux seen rest else a :: dedupAux (a :: seen) rest

def dedupFirst (l : List String) : List String := dedupAux [] l

theorem mem_dedupAux (l : List String) :
    ∀ (seen : List String) (x : String), x ∈ dedupAux seen l ↔ x ∈ l ∧ x ∉ seen := by
  induction l with
  | nil =>
    intro seen x
    simp [dedupAux]
  | cons a rest ih =>
    intro seen x
    by_cases ha : a ∈ seen
    · simp only [dedupAux, if_pos ha, ih, List.mem_cons]
      constructor
      · rintro ⟨hx, hnx⟩
        exact ⟨Or.inr hx, hnx⟩
      · rintro ⟨hx | hx, hnx⟩
        · subst hx
          exact absurd ha hnx
        · exact ⟨hx, hnx⟩
    · simp only [dedupAux, if_neg ha, List.mem_cons, ih]
      constructor
      · rintro (hx | ⟨hx, hnx⟩)
        · subst hx
          exact ⟨Or.inl rfl, ha⟩
        · simp only [List.mem_cons, not_or] at hnx
          exact ⟨Or.inr hx, hnx.2⟩
      · rintro ⟨hx | hx, hnx⟩
        · exact Or.inl hx
        · by_cases hxa : x = a
          · exact Or.inl hxa
          · exact Or.inr ⟨hx, by simp [List.mem_cons, not_or, hxa, hnx]⟩

theorem nodup_dedupAux (l : List String) :
    ∀ seen : List String, (dedupAux seen l).Nodup := by
  induction l with
  | nil =>
    intro seen
    simp [dedupAux]
  | cons a rest ih =>
    intro seen
    by_cases ha : a ∈ seen
    · simpa only [dedupAux, if_pos ha] using ih seen
    · simp only [dedupAux, if_neg ha, List.nodup_cons]
      constructor
      · intro hmem
        exact absurd ((mem_dedupAux rest (a :: seen) a).mp hmem).2 (by simp)
      · exact ih (a :: seen)

theorem dedupAux_eq_self (l : List String) :
    ∀ seen : List String, l.Nodup → (∀ x ∈ l, x ∉ seen) → dedupAux seen l = l := by
  induction l with
  | nil =>
    intro seen _ _
    rfl
  | cons a rest ih =>
    intro seen hnd hout
    have ha : a ∉ seen := hout a (List.mem_cons_self a rest)
    simp only [dedupAux, if_neg ha]
    congr 1
    refine ih (a :: seen) (List.Nodup.of_cons hnd) ?_
    intro x hx
    simp only [List.mem_cons, not_or]
    exact ⟨fun hxa => (List.nodup_cons.mp hnd).1 (hxa ▸ hx), hout x (List.mem_cons_of_mem a hx)⟩

/- `normalizeTags` from `routes/tags.ts`: map `trim`+`toLowerCase`,
   drop empties, then dedupe through a `Set`. -/
def normalizeTags (tags : List String) : List String :=
  dedupFirst ((tags.map normTag).filter (fun t => decide (0 < t.length)))

theorem mem_normalizeTags (ts : List String) (x : String) :
    x ∈ normalizeTags ts ↔ x ∈ ts.map normTag ∧ 0 < x.length := by
  simp only [normalizeTags, dedupFirst, mem_dedupAux, List.mem_filter,
    List.not_mem_nil, not_false_iff, and_true, decide_eq_true_eq]

theorem normalizeTags_idem (ts : List String) :
    normalizeTags (normalizeTags ts) = normalizeTags ts := by
  have hfix : ∀ x ∈ normalizeTags ts, normTag x = x := by
    intro x hx
    rcases List.mem_map.mp ((mem_normalizeTags ts x).mp hx).1 with ⟨y, _, hy⟩
    rw [← hy, normTag_idem]
  have hpos : ∀ x ∈ normalizeTags ts, 0 < x.length :=
    fun x hx => ((mem_normalizeTags ts x).mp hx).2
  have hnodup : (normalizeTags ts).Nodup := nodup_dedupAux _ []
  show dedupFirst (((normalizeTags ts).map normTag).filter
    (fun t => decide (0 < t.length))) = normalizeTags ts
  have hmap : (normalizeTags ts).map normTag = normalizeTags ts := by
    calc (normalizeTags ts).map normTag = (normalizeTags ts).map id :=
          List.map_congr_left (fun a ha => hfix a ha)
      _ = normalizeTags ts := List.map_id _
  rw [hmap]
  have hfilter : (normalizeTags ts).filter (fun t => decide (0 < t.length)) =
      normalizeTags ts :=
    List.filter_eq_self.mpr (fun a ha => by simpa using hpos a ha)
  rw [hfilter]
  exact dedupAux_eq_self _ [] hnodup (by simp)

def exTagsBAA : List String := [r"B", r"a", r"a"]
def exTagsAB : List String := [r"a", r"b"]
def tagB : String := "b"

/-- Claim C9: tag normalization is the trim-lowercase-dropEmpty-dedup
pipeline, it is idempotent, and it is order-insensitive up to set
equality of the normalized inputs; `["B","a","a"]` and `["a","b"]` yield
the same stored set. -/
theorem normalizeTags_spec :
    (∀ ts : List String, normalizeTags ts =
      dedupFirst ((ts.map normTag).filter (fun t => decide (0 < t.length)))) ∧
    (∀ ts : List String, normalizeTags (normalizeTags ts) = normalizeTags ts) ∧
    (∀ ts₁ ts₂ : List String,
      (∀ x, x ∈ ts₁.map normTag ↔ x ∈ ts₂.map normTag) →
      ∀ x, (x ∈ normalizeTags ts₁ ↔ x ∈ normalizeTags ts₂)) ∧
    (normalizeTags exTagsBAA).Perm (normalizeTags exTagsAB) := by
  refine ⟨fun ts => rfl, normalizeTags_idem, ?_, ?_⟩
  · intro ts₁ ts₂ hset x
    rw [mem_normalizeTags, mem_normalizeTags, hset x]
  · decide

/-- Witness for C9: the order-insensitivity applied to the concrete
inputs `["B","a","a"]` and `["a","b"]` at the tag `"b"`. -/
theorem normalizeTags_spec_witness : tagB ∈ normalizeTags exTagsAB := by
  have hset : ∀ x, x ∈ exTagsBAA.map normTag ↔ x ∈ exTagsAB.map normTag := by
    intro x
    show x ∈ [normTag (r"B"), normTag (r"a"), normTag (r"a")] ↔
      x ∈ [normTag (r"a"), normTag (r"b")]
    have hb : normTag (r"B") = tagB := by decide
    have ha : normTag (r"a") = (r"a" : String) := by decide
    have hb2 : normTag (r"b") = tagB := by decide
    rw [hb, ha, hb2]
    simp only [List.mem_cons, List.not_mem_nil, or_false]
    tauto
  exact (normalizeTags_spec.2.2.1 exTagsBAA exTagsAB hset tagB).mp (by decide)

/-! Claim C10: `getObjectTags` (`routes/tags.ts` lines 45-68 and
`routes/s3.ts` lines 59-82).  The storage probe is a head request that
may fail (`Except.error`); `JSON.parse` plus the `Array.isArray` test is
an oracle into a three-way outcome.  Every failure path of the source is
caught and turned into `[]`, which is why the embedded functions return
a plain list and not an `Except`. -/

inductive ParseOutcome where
  | failure
  | nonArray
  | array (elems : List String)
deriving DecidableEq, Repr

def metaTagsKeyAmz : String := "x-amz-meta-tags"
def metaTagsKeyPlain : String := "tags"

def metaLookup (metadata : List (String × String)) (k : String) : Option String :=
  match metadata.find? (fun p => p.1 == k) with
  | some p => some p.2
  | none => none

/- JS `a || b` on possibly-absent strings: an empty string is falsy. -/
def jsOrString (a b : Option String) : Option String :=
  match a with
  | some s => if s.length = 0 then b else some s
  | none => b

/- `metadata["x-amz-meta-tags"] || metadata["tags"]`. -/
def tagsMetaOf (metadata : List (String × String)) : Option String :=
  jsOrString (metaLookup metadata metaTagsKeyAmz) (metaLookup metadata metaTagsKeyPlain)

/- The `routes/tags.ts` variant (normalizes the parsed array). -/
def getObjectTagsTagged (parse : String → ParseOutcome)
    (head : Except String (List (String × String))) : List String :=
  match head with
  | Except.error _ => []
  | Except.ok metadata =>
    match tagsMetaOf metadata with
    | none => []
    | some tagsMeta =>
      if tagsMeta.length = 0 then []
      else
        match parse tagsMeta with
        | ParseOutcome.failure => []
        | ParseOutcome.nonArray => []
        | ParseOutcome.array tags => normalizeTags tags

/- The `routes/s3.ts` variant (returns the parsed array as-is). -/
def getObjectTagsPlain (parse : String → ParseOutcome)
    (head : Except String (List (String × String))) : List String :=
  match head with
  | Except.error _ => []
  | Except.ok metadata =>
    match tagsMetaOf metadata with
    | none => []
    | some tagsMeta =>
      if tagsMeta.length = 0 then []
      else
        match parse tagsMeta with
        | ParseOutcome.failure => []
        | ParseOutcome.nonArray => []
        | ParseOutcome.array tags => tags

/-- Claim C10: reading an object's tags is total — if the storage probe
fails, the metadata carries no (or an empty, hence falsy) tags entry, or
the tags entry does not parse to a JSON array, both `getObjectTags`
variants return the empty list instead of propagating the exception, so
those states are indistinguishable from an object with no tags. -/
theorem getObjectTags_total (parse : String → ParseOutcome)
    (head : Except String (List (String × String))) :
    ((∃ e, head = Except.error e) ∨
     (∃ m, head = Except.ok m ∧ ∀ s, tagsMetaOf m = some s → s.length = 0) ∨
     (∃ m s, head = Except.ok m ∧ tagsMetaOf m = some s ∧
       (parse s = ParseOutcome.failure ∨ parse s = ParseOutcome.nonArray))) →
    getObjectTagsTagged parse head = [] ∧ getObjectTagsPlain parse head = [] := by
  intro hcase
  rcases hcase with ⟨e, he⟩ | ⟨m, hm, hfalsy⟩ | ⟨m, s, hm, hs, hparse⟩
  · subst he
    exact ⟨rfl, rfl⟩
  · subst hm
    cases ht : tagsMetaOf m with
    | none => simp [getObjectTagsTagged, getObjectTagsPlain, ht]
    | some s =>
      have hz : s.length = 0 := hfalsy s ht
      simp [getObjectTagsTagged, getObjectTagsPlain, ht, hz]
  · subst hm
    by_cases hz : s.length = 0
    · simp [getObjectTagsTagged, getObjectTagsPlain, hs, hz]
    · rcases hparse with hp | hp <;>
        simp [getObjectTagsTagged, getObjectTagsPlain, hs, hz, hp]

/-- Witness for C10: a failing storage probe yields the empty tag list in
both variants. -/
theorem getObjectTags_total_witness :
    getObjectTagsTagged (fun _ => ParseOutcome.failure) (Except.error errNoSuchKey) = [] ∧
    getObjectTagsPlain (fun _ => ParseOutcome.failure) (Except.error errNoSuchKey) = [] :=
  getObjectTags_total (fun _ => ParseOutcome.failure) (Except.error errNoSuchKey)
    (Or.inl ⟨errNoSuchKey, rfl⟩)

end Lumina
